import Mathlib

/-!
# Verification of the tile-grid pursuit core (`app.py`)

Shallow embedding of the algorithmic core of the game-creator backend:

* `find_path` — breadth-first search over a 2-D occupancy grid
  (`find_path` in `app.py`), with the queue holding full paths and a
  `seen` set, exactly as in the source.  The Python `while` loop is
  rendered as a fuel-indexed recursion; the fuel `rows * cols + 1` is
  proved sufficient for every input the loop can actually reach.
* `get_ai_move` — the `/api/ai-move` handler: field extraction, grid
  construction from the object list, actor resolution, path planning and
  result translation.  Python's dynamic failures (`KeyError`,
  `TypeError`, `ZeroDivisionError`, `IndexError`) are modelled by
  `Option`/fall-through cases that all map to the generic
  "Internal server error" response, as the source's `except` clause does.

Machine integers are `Int` (Python's unbounded ints); Python floor
division `//` is `Int.fdiv`; Python list indexing (including the
negative-index wrap on assignment) is modelled by `pyIdx`.
-/

/-- A grid cell, written `(row, col)` as in the source. -/
abbrev Cell := Int × Int

/-- The neighbour offsets of `find_path`, in source order:
`[(0, 1), (0, -1), (1, 0), (-1, 0)]` — that is, +col, −col, +row, −row. -/
def dirs : List (Int × Int) := [(0, 1), (0, -1), (1, 0), (-1, 0)]

/-- The bounds test `0 <= nr < len(grid) and 0 <= nc < len(grid[0])` of
the BFS guard.  The column bound uses the first row's length, as in the
source. -/
def inBounds (grid : List (List Nat)) (p : Cell) : Bool :=
  decide (0 ≤ p.1) && decide (p.1 < (grid.length : Int)) &&
  decide (0 ≤ p.2) && decide (p.2 < ((grid.headD []).length : Int))

/-- The full BFS guard on a cell: in bounds and `grid[nr][nc] == 0`. -/
def isOpen (grid : List (List Nat)) (p : Cell) : Bool :=
  inBounds grid p && ((grid.getD p.1.toNat []).getD p.2.toNat 1 == 0)

/-- One admissible BFS move: `b` differs from `a` by one of the four
offsets in `dirs` and the guard admits `b`.  (The source never tests the
cell it moves *from*.) -/
def step (grid : List (List Nat)) (a b : Cell) : Prop :=
  (b.1 - a.1, b.2 - a.2) ∈ dirs ∧ isOpen grid b = true

instance (grid : List (List Nat)) (a b : Cell) : Decidable (step grid a b) := by
  unfold step; infer_instance

/-- Reachability in exactly `n` admissible moves: `reachN grid s n t` holds
when `t` is reachable from `s` in `n`
moves.  This is the independent graph-distance specification the BFS is
checked against. -/
def reachN (grid : List (List Nat)) (s : Cell) : Nat → Cell → Prop
  | 0, t => t = s
  | n + 1, t => ∃ m, reachN grid s n m ∧ step grid m t

/-- The number `n` is the exact graph distance from `s` to `t`. -/
def minReach (grid : List (List Nat)) (s t : Cell) (n : Nat) : Prop :=
  reachN grid s n t ∧ ∀ k, reachN grid s k t → n ≤ k

/-- The body of the `for dr, dc in ...` loop of `find_path`, iterated over
the remaining offsets.  `Except.error` is the early `return new_path` taken
when the end cell is enqueued; `Except.ok` carries the updated queue and
seen set when the loop runs to completion. -/
def processDirs (grid : List (List Nat)) (e : Cell) (path : List Cell) (r c : Int) :
    List (Int × Int) → List (List Cell) → List Cell →
    Except (List Cell) (List (List Cell) × List Cell)
  | [], queue, seen => Except.ok (queue, seen)
  | (dr, dc) :: ds, queue, seen =>
    let nr := r + dr
    let nc := c + dc
    if isOpen grid (nr, nc) = true ∧ (nr, nc) ∉ seen then
      let new_path := path ++ [(nr, nc)]
      let seen2 := (nr, nc) :: seen
      if (nr, nc) = e then Except.error new_path
      else processDirs grid e path r c ds (queue ++ [new_path]) seen2
    else processDirs grid e path r c ds queue seen

/-- The `while queue:` loop of `find_path`, with explicit fuel.  Each queue
entry is the full path to its last cell, as in the source.  The fuel case
and the `getLast? = none` case are unreachable for the states `find_path`
produces (proved below); both answer `none` like an emptied queue. -/
def bfsLoop (grid : List (List Nat)) (e : Cell) (ds0 : List (Int × Int)) :
    Nat → List (List Cell) → List Cell → Option (List Cell)
  | 0, _, _ => none
  | _ + 1, [], _ => none
  | fuel + 1, path :: rest, seen =>
    match path.getLast? with
    | none => none
    | some (r, c) =>
      match processDirs grid e path r c ds0 rest seen with
      | Except.error found => some found
      | Except.ok (queue2, seen2) => bfsLoop grid e ds0 fuel queue2 seen2

/-- The function `find_path(grid, start, end)` of `app.py`: BFS from `start` to `e`,
queue seeded with `[[start]]`, seen set with `{start}`, returning the
single-cell path when `start == end`. -/
def find_path (grid : List (List Nat)) (start e : Cell) : Option (List Cell) :=
  if start = e then some [start]
  else bfsLoop grid e dirs (grid.length * (grid.headD []).length + 1) [[start]] [start]

/-- Modelled from the spec: the neighbour exploration order `+row, −row,
+col, −col` that §4.2 of the spec asserts.  Used only to compare the
asserted tie-break order against the source's actual one. -/
def specDirs : List (Int × Int) := [(1, 0), (-1, 0), (0, 1), (0, -1)]

/-- Modelled from the spec: `find_path` as it would behave if the spec's
claimed neighbour order `+row, −row, +col, −col` were the implemented one.
Identical to `find_path` except for the offset list. -/
def find_path_specOrder (grid : List (List Nat)) (start e : Cell) : Option (List Cell) :=
  if start = e then some [start]
  else bfsLoop grid e specDirs (grid.length * (grid.headD []).length + 1) [[start]] [start]

/-! ## The `/api/ai-move` handler -/

/-- A JSON scalar as far as the handler can observe it: an integer or a
string.  Other JSON shapes behave like a string for the handler (they are
neither equal to the recognised category strings nor usable in `//`). -/
inductive JVal where
  | jint : Int → JVal
  | jstr : String → JVal
deriving DecidableEq

/-- One entry of the `objects` array.  `none` fields model absent keys
(`KeyError` on access). -/
structure JObj where
  type : Option JVal
  x : Option JVal
  y : Option JVal
deriving DecidableEq

/-- The request body of `/api/ai-move`.  `none` fields model absent keys. -/
structure JReq where
  width : Option JVal
  height : Option JVal
  grid_size : Option JVal
  objects : Option (List JObj)
deriving DecidableEq

/-- The handler's possible JSON replies: `success` and `no_move` carry
`next_x`/`next_y`; `errorResp` carries the message and the HTTP status. -/
inductive AIResp where
  | success : Int → Int → AIResp
  | noMove : Int → Int → AIResp
  | errorResp : String → Nat → AIResp
deriving DecidableEq

/-- Python list indexing for assignment: valid for `-len ≤ i < len`, with
negative indices wrapping from the end; anything else raises `IndexError`
(`none`). -/
def pyIdx (len : Nat) (i : Int) : Option Nat :=
  if 0 ≤ i ∧ i < (len : Int) then some i.toNat
  else if -(len : Int) ≤ i ∧ i < 0 then some (i + len).toNat
  else none

/-- The assignment `grid[r][c] = 1` with Python indexing semantics; `none` models the
`IndexError` the source raises for an out-of-range cell. -/
def setCell (grid : List (List Nat)) (r c : Int) : Option (List (List Nat)) :=
  match pyIdx grid.length r with
  | none => none
  | some ri =>
    let row := grid.getD ri []
    match pyIdx row.length c with
    | none => none
    | some ci => some (grid.set ri (row.set ci 1))

/-- The `for obj in objects:` loop of `get_ai_move`: computes each object's
cell by floor division, marks `wall`/`enemy` cells, records the last
`player` and `ai_enemy` cells, ignores every other type.  `none` models any
exception in the loop body (`KeyError` for a missing field, `TypeError` for
a non-integer coordinate, `IndexError` from the grid assignment). -/
def procObjs (grid_size : Int) :
    List JObj → List (List Nat) → Option Cell → Option Cell →
    Option (List (List Nat) × Option Cell × Option Cell)
  | [], grid, player_pos, ai_pos => some (grid, player_pos, ai_pos)
  | obj :: rest, grid, player_pos, ai_pos =>
    match obj.y, obj.x, obj.type with
    | some (JVal.jint y), some (JVal.jint x), some ty =>
      let r := Int.fdiv y grid_size
      let c := Int.fdiv x grid_size
      if ty = JVal.jstr "wall" ∨ ty = JVal.jstr "enemy" then
        match setCell grid r c with
        | none => none
        | some grid2 => procObjs grid_size rest grid2 player_pos ai_pos
      else if ty = JVal.jstr "player" then
        procObjs grid_size rest grid (some (r, c)) ai_pos
      else if ty = JVal.jstr "ai_enemy" then
        procObjs grid_size rest grid player_pos (some (r, c))
      else
        procObjs grid_size rest grid player_pos ai_pos
    | _, _, _ => none

/-- The comprehension `[[0] * cols for _ in range(rows)]` with `cols = width // grid_size`,
`rows = height // grid_size`; negative counts give empty lists, as in
Python. -/
def mkGrid (width height grid_size : Int) : List (List Nat) :=
  List.replicate (Int.fdiv height grid_size).toNat
    (List.replicate (Int.fdiv width grid_size).toNat 0)

/-- The `/api/ai-move` handler `get_ai_move` of `app.py`.  Every dynamic
failure inside the `try` block (missing or non-integer fields, division by
a zero `grid_size`, out-of-range grid assignment) is caught by the
source's `except` clause and answered with the generic
`("Internal server error", 500)` response. -/
def get_ai_move (req : JReq) : AIResp :=
  match req.width, req.height, req.grid_size, req.objects with
  | some (JVal.jint width), some (JVal.jint height),
      some (JVal.jint grid_size), some objects =>
    if grid_size = 0 then AIResp.errorResp "Internal server error" 500
    else
      match procObjs grid_size objects (mkGrid width height grid_size) none none with
      | none => AIResp.errorResp "Internal server error" 500
      | some (grid, player_pos, ai_pos) =>
        match player_pos, ai_pos with
        | some pp, some ap =>
          match find_path grid ap pp with
          | some (_ :: next :: _) =>
            AIResp.success (next.2 * grid_size) (next.1 * grid_size)
          | _ => AIResp.noMove (ap.2 * grid_size) (ap.1 * grid_size)
        | _, _ => AIResp.errorResp "Player or AI not found" 400
  | _, _, _, _ => AIResp.errorResp "Internal server error" 500


/-! ## Specification-side predicates -/

/-- The grid is a rectangular matrix, as the data model's `OccupancyGrid`
requires.  On this domain the embedding's cell lookup coincides exactly
with the source's `grid[nr][nc]` (on ragged lists the Python source could
instead raise `IndexError`). -/
def Rect (grid : List (List Nat)) : Prop :=
  ∀ row ∈ grid, row.length = (grid.headD []).length

instance (grid : List (List Nat)) : Decidable (Rect grid) := by
  unfold Rect
  infer_instance

/-- A correct BFS answer: a simple path of admissible moves from `s`
ending at `e` whose edge count `p.length - 1` is the exact graph
distance. -/
def GoodPath (grid : List (List Nat)) (s e : Cell) (p : List Cell) : Prop :=
  (∃ tl, p = s :: tl ∧ List.Chain (step grid) s tl) ∧ p.Nodup ∧
    p.getLast? = some e ∧ minReach grid s e (p.length - 1)

/-! ## Basic lemmas about graph distance -/

lemma minReach_self (grid : List (List Nat)) (s : Cell) : minReach grid s s 0 :=
  ⟨rfl, fun _ _ => Nat.zero_le _⟩

lemma exists_minReach {grid : List (List Nat)} {s t : Cell} {n : Nat}
    (h : reachN grid s n t) : ∃ m, m ≤ n ∧ minReach grid s t m := by
  classical
  have hex : ∃ k, reachN grid s k t := ⟨n, h⟩
  exact ⟨Nat.find hex, Nat.find_min' hex h,
    Nat.find_spec hex, fun k hk => Nat.find_min' hex hk⟩

lemma minReach_unique {grid : List (List Nat)} {s t : Cell} {n m : Nat}
    (h1 : minReach grid s t n) (h2 : minReach grid s t m) : n = m :=
  Nat.le_antisymm (h1.2 m h2.1) (h2.2 n h1.1)

lemma minReach_pred {grid : List (List Nat)} {s t : Cell} {n : Nat}
    (h : minReach grid s t (n + 1)) :
    ∃ m, minReach grid s m n ∧ step grid m t := by
  obtain ⟨m, hm, hst⟩ := h.1
  refine ⟨m, ⟨hm, fun k hk => ?_⟩, hst⟩
  have : reachN grid s (k + 1) t := ⟨m, hk, hst⟩
  have := h.2 _ this
  omega

/-- Along any walk witnessing reachability of an unseen cell from a seen
one, some admissible move crosses the seen boundary. -/
lemma reach_first_unseen {grid : List (List Nat)} {s : Cell} {S : List Cell} :
    ∀ {n : Nat} {t : Cell}, reachN grid s n t → t ∉ S → s ∈ S →
      ∃ y x, y ∈ S ∧ x ∉ S ∧ step grid y x := by
  intro n
  induction n with
  | zero => intro t ht hts hs; cases ht; exact absurd hs hts
  | succ n ih =>
    intro t ht hts hs
    obtain ⟨m, hm, hst⟩ := ht
    by_cases hmS : m ∈ S
    · exact ⟨m, t, hmS, hts, hst⟩
    · exact ih hm hmS hs

/-! ## List chain helpers -/

lemma chain_concat {R : Cell → Cell → Prop} {b t : Cell} :
    ∀ {s : Cell} {tl : List Cell}, List.Chain R s tl →
      (s :: tl).getLast? = some t → R t b → List.Chain R s (tl ++ [b]) := by
  intro s tl
  induction tl generalizing s with
  | nil =>
    intro _ hlast hR
    simp only [List.getLast?_singleton, Option.some.injEq] at hlast
    subst hlast
    exact List.Chain.cons hR List.Chain.nil
  | cons a tl ih =>
    intro hchain hlast hR
    rcases hchain with _ | ⟨hsa, hatl⟩
    rw [List.getLast?_cons_cons] at hlast
    exact List.Chain.cons hsa (ih hatl hlast hR)

lemma step_offset {grid : List (List Nat)} {r c : Int} {d : Int × Int}
    (hd : d ∈ dirs) (ho : isOpen grid (r + d.1, c + d.2) = true) :
    step grid (r, c) (r + d.1, c + d.2) := by
  refine ⟨?_, ho⟩
  have h1 : r + d.1 - r = d.1 := by ring
  have h2 : c + d.2 - c = d.2 := by ring
  simpa [h1, h2] using hd

/-! ## Characterisation of the inner `for dr, dc` loop -/

lemma processDirs_ok_spec (grid : List (List Nat)) (e : Cell) (path : List Cell) (r c : Int) :
    ∀ (ds : List (Int × Int)) (queue : List (List Cell)) (seen : List Cell)
      {queue2 : List (List Cell)} {seen2 : List Cell},
      processDirs grid e path r c ds queue seen = Except.ok (queue2, seen2) →
      ∃ news : List Cell,
        seen2 = news.reverse ++ seen ∧
        queue2 = queue ++ news.map (fun n => path ++ [n]) ∧
        (∀ n ∈ news, isOpen grid n = true ∧ n ∉ seen ∧ n ≠ e ∧
          ∃ d ∈ ds, n = (r + d.1, c + d.2)) ∧
        (seen.Nodup → seen2.Nodup) ∧
        (∀ d ∈ ds, isOpen grid (r + d.1, c + d.2) = true →
          (r + d.1, c + d.2) ∈ seen2) := by
  intro ds
  induction ds with
  | nil =>
    intro queue seen queue2 seen2 h
    simp only [processDirs, Except.ok.injEq, Prod.mk.injEq] at h
    refine ⟨[], by simp [h.2], by simp [h.1], by simp, fun hn => by simpa [← h.2] using hn,
      by simp⟩
  | cons d ds ih =>
    obtain ⟨dr, dc⟩ := d
    intro queue seen queue2 seen2 h
    simp only [processDirs] at h
    by_cases hg : isOpen grid (r + dr, c + dc) = true ∧ (r + dr, c + dc) ∉ seen
    · rw [if_pos hg] at h
      by_cases he : (r + dr, c + dc) = e
      · rw [if_pos he] at h
        exact absurd h (by simp)
      · rw [if_neg he] at h
        obtain ⟨news, hseen, hqueue, hprops, hnodup, hcover⟩ := ih _ _ h
        refine ⟨(r + dr, c + dc) :: news, ?_, ?_, ?_, ?_, ?_⟩
        · rw [hseen, List.reverse_cons, List.append_assoc]
          simp
        · rw [hqueue, List.map_cons]
          simp
        · intro n hn
          rcases List.mem_cons.mp hn with hn | hn
          · subst hn
            exact ⟨hg.1, hg.2, he, ⟨(dr, dc), List.mem_cons_self _ _, rfl⟩⟩
          · obtain ⟨ho, hns, hne, dd, hdd, hcell⟩ := hprops n hn
            exact ⟨ho, fun hmem => hns (List.mem_cons_of_mem _ hmem), hne,
              ⟨dd, List.mem_cons_of_mem _ hdd, hcell⟩⟩
        · intro hs
          exact hnodup (List.Nodup.cons hg.2 hs)
        · intro d' hd' ho'
          rcases List.mem_cons.mp hd' with hd' | hd'
          · subst hd'
            rw [hseen]
            exact List.mem_append_right _ (List.mem_cons_self _ _)
          · exact hcover d' hd' ho'
    · rw [if_neg hg] at h
      obtain ⟨news, hseen, hqueue, hprops, hnodup, hcover⟩ := ih _ _ h
      refine ⟨news, hseen, hqueue, ?_, hnodup, ?_⟩
      · intro n hn
        obtain ⟨ho, hns, hne, dd, hdd, hcell⟩ := hprops n hn
        exact ⟨ho, hns, hne, ⟨dd, List.mem_cons_of_mem _ hdd, hcell⟩⟩
      · intro d' hd' ho'
        rcases List.mem_cons.mp hd' with hd' | hd'
        · subst hd'
          by_cases hmem : (r + dr, c + dc) ∈ seen
          · rw [hseen]
            exact List.mem_append_right _ hmem
          · exact absurd ⟨ho', hmem⟩ hg
        · exact hcover d' hd' ho'

lemma processDirs_error_spec (grid : List (List Nat)) (e : Cell) (path : List Cell) (r c : Int) :
    ∀ (ds : List (Int × Int)) (queue : List (List Cell)) (seen : List Cell)
      {found : List Cell},
      processDirs grid e path r c ds queue seen = Except.error found →
      found = path ++ [e] ∧ isOpen grid e = true ∧ e ∉ seen ∧
        ∃ d ∈ ds, e = (r + d.1, c + d.2) := by
  intro ds
  induction ds with
  | nil =>
    intro queue seen found h
    exact absurd h (by simp [processDirs])
  | cons d ds ih =>
    obtain ⟨dr, dc⟩ := d
    intro queue seen found h
    simp only [processDirs] at h
    by_cases hg : isOpen grid (r + dr, c + dc) = true ∧ (r + dr, c + dc) ∉ seen
    · rw [if_pos hg] at h
      by_cases he : (r + dr, c + dc) = e
      · rw [if_pos he] at h
        simp only [Except.error.injEq] at h
        refine ⟨by rw [← h, he], he ▸ hg.1, he ▸ hg.2,
          ⟨(dr, dc), List.mem_cons_self _ _, he.symm⟩⟩
      · rw [if_neg he] at h
        obtain ⟨hf, ho, hns, dd, hdd, hcell⟩ := ih _ _ h
        exact ⟨hf, ho, fun hmem => hns (List.mem_cons_of_mem _ hmem),
          ⟨dd, List.mem_cons_of_mem _ hdd, hcell⟩⟩
    · rw [if_neg hg] at h
      obtain ⟨hf, ho, hns, dd, hdd, hcell⟩ := ih _ _ h
      exact ⟨hf, ho, hns, ⟨dd, List.mem_cons_of_mem _ hdd, hcell⟩⟩

/-! ## The BFS loop invariant -/

/-- Invariant of the `while queue:` loop of `find_path`, at frontier level
`l` (the front path, when one exists, has length `l + 1`, reaching a cell
at graph distance `l`):

* `snodup`/`sreach`/`scover`/`enot` — the seen set is duplicate-free,
  every seen cell is at distance at most `l + 1`, every cell at distance
  at most `l` is seen, and the goal cell has not been seen (the loop would
  have returned);
* `qpath` — every queued entry is a duplicate-free path of admissible
  moves from `s`, of minimal length to its last cell, with all cells seen;
* `qlen`/`qmono` — queued lengths are `l + 1` or `l + 2` and
  non-decreasing from front to back;
* `procd` — if a seen cell `y` has an admissible move to an unseen cell,
  the path to `y` is still queued (i.e. dequeued cells have had all their
  neighbours examined). -/
structure BfsInv (grid : List (List Nat)) (s e : Cell)
    (Q : List (List Cell)) (S : List Cell) (l : Nat) : Prop where
  snodup : S.Nodup
  sreach : ∀ x ∈ S, ∃ n, n ≤ l + 1 ∧ minReach grid s x n
  scover : ∀ x n, minReach grid s x n → n ≤ l → x ∈ S
  enot : e ∉ S
  qpath : ∀ p ∈ Q, (∃ tl, p = s :: tl ∧ List.Chain (step grid) s tl) ∧ p.Nodup ∧
    (∀ x ∈ p, x ∈ S) ∧ ∃ t, p.getLast? = some t ∧ minReach grid s t (p.length - 1)
  qlen : ∀ p ∈ Q, p.length = l + 1 ∨ p.length = l + 2
  qmono : List.Pairwise (fun p q : List Cell => p.length ≤ q.length) Q
  procd : ∀ x, x ∉ S → ∀ y ∈ S, step grid y x → ∃ p ∈ Q, p.getLast? = some y

lemma bfsInv_init {grid : List (List Nat)} {s e : Cell} (hne : s ≠ e) :
    BfsInv grid s e [[s]] [s] 0 where
  snodup := List.nodup_singleton s
  sreach := by
    intro x hx
    rw [List.mem_singleton] at hx
    exact ⟨0, Nat.zero_le _, hx ▸ minReach_self grid s⟩
  scover := by
    intro x n hx hn
    interval_cases n
    rw [List.mem_singleton]
    exact hx.1
  enot := by
    rw [List.mem_singleton]
    exact fun h => hne h.symm
  qpath := by
    intro p hp
    rw [List.mem_singleton] at hp
    subst hp
    exact ⟨⟨[], rfl, List.Chain.nil⟩, List.nodup_singleton s, by simp,
      ⟨s, rfl, minReach_self grid s⟩⟩
  qlen := by
    intro p hp
    rw [List.mem_singleton] at hp
    subst hp
    exact Or.inl rfl
  qmono := List.pairwise_singleton _ _
  procd := by
    intro x hx y hy hstep
    rw [List.mem_singleton] at hy
    exact ⟨[s], List.mem_singleton_self _, by simp [hy]⟩

/-- When the front path's length exceeds `l + 1`, the whole level `l` has
been processed and the invariant holds one level up. -/
lemma bfsInv_levelUp {grid : List (List Nat)} {s e : Cell}
    {Q : List (List Cell)} {S : List Cell} {l : Nat}
    (h : BfsInv grid s e Q S l) (hall : ∀ p ∈ Q, p.length = l + 2) :
    BfsInv grid s e Q S (l + 1) where
  snodup := h.snodup
  sreach := by
    intro x hx
    obtain ⟨n, hn, hmin⟩ := h.sreach x hx
    exact ⟨n, by omega, hmin⟩
  scover := by
    intro x n hmin hn
    rcases Nat.lt_or_ge n (l + 1) with hlt | hge
    · exact h.scover x n hmin (by omega)
    · have hn' : n = l + 1 := by omega
      subst hn'
      by_contra hx
      obtain ⟨y, hy, hstep⟩ := minReach_pred hmin
      have hyS : y ∈ S := h.scover y l hy le_rfl
      obtain ⟨p, hpQ, hplast⟩ := h.procd x hx y hyS hstep
      obtain ⟨_, _, _, t, ht, hmt⟩ := h.qpath p hpQ
      rw [hplast] at ht
      cases ht
      have hlen : p.length - 1 = l := minReach_unique hmt hy
      have := hall p hpQ
      omega
  enot := h.enot
  qpath := h.qpath
  qlen := by
    intro p hp
    exact Or.inl (hall p hp)
  qmono := h.qmono
  procd := h.procd

/-- Normalise the level so that the front path has length exactly
`l + 1`. -/
lemma bfsInv_front {grid : List (List Nat)} {s e : Cell}
    {p₀ : List Cell} {rest : List (List Cell)} {S : List Cell} {l : Nat}
    (h : BfsInv grid s e (p₀ :: rest) S l) :
    ∃ l2, BfsInv grid s e (p₀ :: rest) S l2 ∧ p₀.length = l2 + 1 := by
  rcases h.qlen p₀ (List.mem_cons_self _ _) with h1 | h1
  · exact ⟨l, h, h1⟩
  · have hall : ∀ p ∈ p₀ :: rest, p.length = l + 2 := by
      intro p hp
      rcases List.mem_cons.mp hp with hp | hp
      · subst hp; exact h1
      · have hle : p₀.length ≤ p.length :=
          (List.pairwise_cons.mp h.qmono).1 p hp
        rcases h.qlen p (List.mem_cons_of_mem _ hp) with h2 | h2 <;> omega
    exact ⟨l + 1, bfsInv_levelUp h hall, h1⟩

lemma pairwise_of_constant {α : Type} {R : α → α → Prop} (hR : ∀ a b, R a b) :
    ∀ l : List α, List.Pairwise R l
  | [] => List.Pairwise.nil
  | a :: l => List.Pairwise.cons (fun b _ => hR a b) (pairwise_of_constant hR l)

/-- Dequeuing the front path and running the neighbour loop preserves the
invariant (at the same level). -/
lemma bfsInv_step {grid : List (List Nat)} {s e : Cell} {p₀ : List Cell}
    {rest Q2 : List (List Cell)} {S S2 : List Cell} {l : Nat} {r c : Int}
    (h : BfsInv grid s e (p₀ :: rest) S l) (hlen : p₀.length = l + 1)
    (hcur : p₀.getLast? = some (r, c))
    (hok : processDirs grid e p₀ r c dirs rest S = Except.ok (Q2, S2)) :
    BfsInv grid s e Q2 S2 l := by
  obtain ⟨news, hseen, hqueue, hprops, hnodup, hcover⟩ :=
    processDirs_ok_spec grid e p₀ r c dirs rest S hok
  obtain ⟨⟨tl, htl, hchain⟩, hnd, hsub, t, ht, hmt⟩ := h.qpath p₀ (List.mem_cons_self _ _)
  rw [hcur] at ht
  cases ht
  have hmincur : minReach grid s (r, c) l := by
    have hl : p₀.length - 1 = l := by omega
    rwa [hl] at hmt
  have hstepnew : ∀ n ∈ news, step grid (r, c) n := by
    intro n hn
    obtain ⟨ho, _, _, d, hd, hcell⟩ := hprops n hn
    subst hcell
    exact step_offset hd ho
  have hminnew : ∀ n ∈ news, minReach grid s n (l + 1) := by
    intro n hn
    obtain ⟨ho, hns, hne, _⟩ := hprops n hn
    refine ⟨⟨(r, c), hmincur.1, hstepnew n hn⟩, ?_⟩
    intro k hk
    by_contra hlt
    push_neg at hlt
    obtain ⟨m, hm, hmin⟩ := exists_minReach hk
    exact hns (h.scover n m hmin (by omega))
  have hSsub : ∀ x ∈ S, x ∈ S2 := by
    intro x hx
    rw [hseen]
    exact List.mem_append_right _ hx
  have hnews_mem : ∀ n ∈ news, n ∈ S2 := by
    intro n hn
    rw [hseen]
    exact List.mem_append_left _ (List.mem_reverse.mpr hn)
  constructor
  case snodup => exact hnodup h.snodup
  case sreach =>
    intro x hx
    rw [hseen] at hx
    rcases List.mem_append.mp hx with hx | hx
    · rw [List.mem_reverse] at hx
      exact ⟨l + 1, le_rfl, hminnew x hx⟩
    · exact h.sreach x hx
  case scover =>
    intro x n hmin hn
    exact hSsub x (h.scover x n hmin hn)
  case enot =>
    rw [hseen]
    intro hmem
    rcases List.mem_append.mp hmem with hmem | hmem
    · rw [List.mem_reverse] at hmem
      obtain ⟨_, _, hne, _⟩ := hprops e hmem
      exact hne rfl
    · exact h.enot hmem
  case qpath =>
    intro p hp
    rw [hqueue] at hp
    rcases List.mem_append.mp hp with hp | hp
    · obtain ⟨hch, hnd', hsub', t', ht', hmt'⟩ := h.qpath p (List.mem_cons_of_mem _ hp)
      exact ⟨hch, hnd', fun x hx => hSsub x (hsub' x hx), t', ht', hmt'⟩
    · obtain ⟨n, hn, rfl⟩ := List.mem_map.mp hp
      obtain ⟨_, hns, _, _⟩ := hprops n hn
      refine ⟨⟨tl ++ [n], by rw [htl]; simp, chain_concat hchain (htl ▸ hcur) (hstepnew n hn)⟩,
        ?_, ?_, n, List.getLast?_concat _, ?_⟩
      · rw [List.nodup_append]
        refine ⟨hnd, List.nodup_singleton _, ?_⟩
        intro a ha hae
        rw [List.mem_singleton] at hae
        subst hae
        exact hns (hsub a ha)
      · intro x hx
        rcases List.mem_append.mp hx with hx | hx
        · exact hSsub x (hsub x hx)
        · rw [List.mem_singleton] at hx
          subst hx
          exact hnews_mem x hn
      · have hl2 : (p₀ ++ [n]).length - 1 = l + 1 := by
          rw [List.length_append]
          simp [hlen]
        rw [hl2]
        exact hminnew n hn
  case qlen =>
    intro p hp
    rw [hqueue] at hp
    rcases List.mem_append.mp hp with hp | hp
    · exact h.qlen p (List.mem_cons_of_mem _ hp)
    · obtain ⟨n, hn, rfl⟩ := List.mem_map.mp hp
      right
      rw [List.length_append]
      simp [hlen]
  case qmono =>
    rw [hqueue, List.pairwise_append]
    refine ⟨(List.pairwise_cons.mp h.qmono).2, ?_, ?_⟩
    · rw [List.pairwise_map]
      exact pairwise_of_constant (fun a b => by simp) news
    · intro a ha b hb
      obtain ⟨n, hn, rfl⟩ := List.mem_map.mp hb
      have hb2 : (p₀ ++ [n]).length = l + 2 := by
        rw [List.length_append]
        simp [hlen]
      rcases h.qlen a (List.mem_cons_of_mem _ ha) with h2 | h2 <;> omega
  case procd =>
    intro x hx y hy hstep
    rw [hseen] at hy
    rcases List.mem_append.mp hy with hy | hy
    · rw [List.mem_reverse] at hy
      refine ⟨p₀ ++ [y], ?_, List.getLast?_concat _⟩
      rw [hqueue]
      exact List.mem_append_right _ (List.mem_map.mpr ⟨y, hy, rfl⟩)
    · by_cases hyc : y = (r, c)
      · exfalso
        subst hyc
        obtain ⟨hadj, hopen⟩ := hstep
        have hcell : (r + (x.1 - r), c + (x.2 - c)) = x := by
          rw [Prod.ext_iff]
          constructor <;> simp
        have hmem := hcover (x.1 - r, x.2 - c) hadj (by rwa [hcell])
        rw [hcell] at hmem
        exact hx hmem
      · have hx' : x ∉ S := fun hm => hx (hSsub x hm)
        obtain ⟨p, hpQ, hplast⟩ := h.procd x hx' y hy hstep
        rcases List.mem_cons.mp hpQ with hp | hp
        · subst hp
          rw [hcur] at hplast
          injection hplast with hh
          exact absurd hh.symm hyc
        · refine ⟨p, ?_, hplast⟩
          rw [hqueue]
          exact List.mem_append_left _ hp

/-- When the neighbour loop takes the early `return new_path`, the
returned path is a correct, shortest answer. -/
lemma bfsFound {grid : List (List Nat)} {s e : Cell} {p₀ : List Cell}
    {rest : List (List Cell)} {S : List Cell} {l : Nat} {r c : Int}
    {found : List Cell}
    (h : BfsInv grid s e (p₀ :: rest) S l) (hlen : p₀.length = l + 1)
    (hcur : p₀.getLast? = some (r, c))
    (herr : processDirs grid e p₀ r c dirs rest S = Except.error found) :
    GoodPath grid s e found := by
  obtain ⟨hf, hoe, hens, d, hd, hcell⟩ :=
    processDirs_error_spec grid e p₀ r c dirs rest S herr
  obtain ⟨⟨tl, htl, hchain⟩, hnd, hsub, t, ht, hmt⟩ := h.qpath p₀ (List.mem_cons_self _ _)
  rw [hcur] at ht
  cases ht
  have hmincur : minReach grid s (r, c) l := by
    have hl : p₀.length - 1 = l := by omega
    rwa [hl] at hmt
  have hstepe : step grid (r, c) e := by
    subst hcell
    exact step_offset hd hoe
  have hmine : minReach grid s e (l + 1) := by
    refine ⟨⟨(r, c), hmincur.1, hstepe⟩, ?_⟩
    intro k hk
    by_contra hlt
    push_neg at hlt
    obtain ⟨m, hm, hmin⟩ := exists_minReach hk
    exact h.enot (h.scover e m hmin (by omega))
  subst hf
  refine ⟨⟨tl ++ [e], by rw [htl]; simp, chain_concat hchain (htl ▸ hcur) hstepe⟩,
    ?_, List.getLast?_concat _, ?_⟩
  · rw [List.nodup_append]
    refine ⟨hnd, List.nodup_singleton _, ?_⟩
    intro a ha hae
    rw [List.mem_singleton] at hae
    subst hae
    exact h.enot (hsub a ha)
  · have hl2 : (p₀ ++ [e]).length - 1 = l + 1 := by
      rw [List.length_append]
      simp [hlen]
    rw [hl2]
    exact hmine

/-- Soundness of the fuelled loop: whatever it returns under the
invariant is a correct, shortest path.  (No assumption on the fuel or on
reachability.) -/
lemma bfsLoop_sound {grid : List (List Nat)} {s e : Cell} :
    ∀ (fuel : Nat) (Q : List (List Cell)) (S : List Cell) (l : Nat) (p : List Cell),
      BfsInv grid s e Q S l → bfsLoop grid e dirs fuel Q S = some p →
      GoodPath grid s e p := by
  intro fuel
  induction fuel with
  | zero =>
    intro Q S l p _ h
    exact absurd h (by simp [bfsLoop])
  | succ fuel ih =>
    intro Q S l p hinv h
    cases Q with
    | nil => exact absurd h (by simp [bfsLoop])
    | cons p₀ rest =>
      obtain ⟨l2, hinv2, hlen⟩ := bfsInv_front hinv
      obtain ⟨_, _, _, t, ht, _⟩ := hinv2.qpath p₀ (List.mem_cons_self _ _)
      obtain ⟨r, c⟩ := t
      rw [bfsLoop, ht] at h
      dsimp only at h
      cases hpd : processDirs grid e p₀ r c dirs rest S with
      | error found =>
        rw [hpd] at h
        simp only [Option.some.injEq] at h
        subst h
        exact bfsFound hinv2 hlen ht hpd
      | ok qs =>
        obtain ⟨Q2, S2⟩ := qs
        rw [hpd] at h
        exact ih Q2 S2 l2 p (bfsInv_step hinv2 hlen ht hpd) h

/-- Under the invariant, an empty queue is impossible while the goal is
reachable: some admissible move out of the seen set would still be
queued. -/
lemma bfsInv_empty_no_reach {grid : List (List Nat)} {s e : Cell}
    {S : List Cell} {l n : Nat}
    (h : BfsInv grid s e [] S l) (hr : reachN grid s n e) : False := by
  have hsS : s ∈ S := h.scover s 0 (minReach_self grid s) (Nat.zero_le _)
  obtain ⟨y, x, hyS, hxS, hstep⟩ := reach_first_unseen hr h.enot hsS
  obtain ⟨p, hp, _⟩ := h.procd x hxS y hyS hstep
  exact absurd hp (List.not_mem_nil p)

/-! ## Fuel adequacy -/

/-- The number of grid cells: the bound on how many distinct in-bounds
cells can ever enter the seen set, and hence (plus one) on the number of
loop iterations. -/
def seenBound (grid : List (List Nat)) : Nat :=
  grid.length * (grid.headD []).length

lemma inBounds_iff {grid : List (List Nat)} {x : Cell} :
    inBounds grid x = true ↔
      0 ≤ x.1 ∧ x.1 < (grid.length : Int) ∧ 0 ≤ x.2 ∧
        x.2 < ((grid.headD []).length : Int) := by
  simp [inBounds, Bool.and_eq_true, decide_eq_true_eq, and_assoc]

lemma isOpen_inBounds {grid : List (List Nat)} {x : Cell}
    (h : isOpen grid x = true) : inBounds grid x = true := by
  rw [isOpen, Bool.and_eq_true] at h
  exact h.1

/-- A duplicate-free list holds at most `seenBound grid` in-bounds
cells. -/
lemma inBounds_filter_length_le {grid : List (List Nat)} {S : List Cell}
    (hS : S.Nodup) :
    (S.filter (fun x => inBounds grid x)).length ≤ seenBound grid := by
  set R := grid.length with hR
  set C := (grid.headD []).length with hC
  set T := S.filter (fun x => inBounds grid x) with hT
  have hTnd : T.Nodup := hS.filter _
  have hmem : ∀ x ∈ T, 0 ≤ x.1 ∧ x.1 < (R : Int) ∧ 0 ≤ x.2 ∧ x.2 < (C : Int) := by
    intro x hx
    have hf := List.of_mem_filter hx
    exact inBounds_iff.mp hf
  have hinj : ∀ x ∈ T, ∀ y ∈ T,
      x.2.toNat + x.1.toNat * C = y.2.toNat + y.1.toNat * C → x = y := by
    intro x hx y hy hxy
    obtain ⟨hx1, hx2, hx3, hx4⟩ := hmem x hx
    obtain ⟨hy1, hy2, hy3, hy4⟩ := hmem y hy
    have ex : x.2.toNat < C := by omega
    have ey : y.2.toNat < C := by omega
    have hCpos : 0 < C := by omega
    have m1 : (x.2.toNat + x.1.toNat * C) % C = x.2.toNat := by
      rw [Nat.add_mul_mod_self_right]
      exact Nat.mod_eq_of_lt ex
    have m2 : (y.2.toNat + y.1.toNat * C) % C = y.2.toNat := by
      rw [Nat.add_mul_mod_self_right]
      exact Nat.mod_eq_of_lt ey
    rw [hxy] at m1
    rw [m2] at m1
    have hfst : x.1.toNat * C = y.1.toNat * C := by omega
    have hfst2 : x.1.toNat = y.1.toNat := Nat.eq_of_mul_eq_mul_right hCpos hfst
    rw [Prod.ext_iff]
    constructor <;> omega
  have hb : ∀ x ∈ T, x.2.toNat + x.1.toNat * C < R * C := by
    intro x hx
    obtain ⟨hx1, hx2, hx3, hx4⟩ := hmem x hx
    have h1 : x.1.toNat + 1 ≤ R := by omega
    have h2 : x.2.toNat < C := by omega
    calc x.2.toNat + x.1.toNat * C < C + x.1.toNat * C := by omega
      _ = (x.1.toNat + 1) * C := by ring
      _ ≤ R * C := Nat.mul_le_mul_right C h1
  have hmapnd : (T.map (fun x : Cell => x.2.toNat + x.1.toNat * C)).Nodup :=
    List.Nodup.map_on hinj hTnd
  have hsub : (T.map (fun x : Cell => x.2.toNat + x.1.toNat * C)).toFinset ⊆
      Finset.range (R * C) := by
    intro n hn
    rw [List.mem_toFinset] at hn
    obtain ⟨x, hx, rfl⟩ := List.mem_map.mp hn
    exact Finset.mem_range.mpr (hb x hx)
  have hlen : T.length ≤ R * C := by
    have h1 := Finset.card_le_card hsub
    rw [List.toFinset_card_of_nodup hmapnd, Finset.card_range, List.length_map] at h1
    exact h1
  exact hlen

/-- Completeness of the fuelled loop: with the invariant, a reachable
goal, and fuel at least the termination measure
`|Q| + (seenBound - seen-in-bounds)`, the loop returns a path. -/
lemma bfsLoop_complete {grid : List (List Nat)} {s e : Cell} :
    ∀ (fuel : Nat) (Q : List (List Cell)) (S : List Cell) (l : Nat),
      BfsInv grid s e Q S l → (∃ n, reachN grid s n e) →
      Q.length + (seenBound grid - (S.filter (fun x => inBounds grid x)).length) ≤ fuel →
      ∃ p, bfsLoop grid e dirs fuel Q S = some p := by
  intro fuel
  induction fuel with
  | zero =>
    intro Q S l hinv hre hmu
    obtain ⟨n, hr⟩ := hre
    cases Q with
    | nil => exact (bfsInv_empty_no_reach hinv hr).elim
    | cons p₀ rest => simp at hmu
  | succ fuel ih =>
    intro Q S l hinv hre hmu
    cases Q with
    | nil =>
      obtain ⟨n, hr⟩ := hre
      exact (bfsInv_empty_no_reach hinv hr).elim
    | cons p₀ rest =>
      obtain ⟨l2, hinv2, hlen⟩ := bfsInv_front hinv
      obtain ⟨_, _, _, t, ht, _⟩ := hinv2.qpath p₀ (List.mem_cons_self _ _)
      obtain ⟨r, c⟩ := t
      cases hpd : processDirs grid e p₀ r c dirs rest S with
      | error found =>
        refine ⟨found, ?_⟩
        rw [bfsLoop, ht]
        dsimp only
        rw [hpd]
      | ok qs =>
        obtain ⟨Q2, S2⟩ := qs
        obtain ⟨news, hseen, hqueue, hprops, hnodup, hcover⟩ :=
          processDirs_ok_spec grid e p₀ r c dirs rest S hpd
        have hQ2len : Q2.length = rest.length + news.length := by
          rw [hqueue]
          simp
        have hS2f : (S2.filter (fun x => inBounds grid x)).length =
            news.length + (S.filter (fun x => inBounds grid x)).length := by
          rw [hseen, List.filter_append, List.length_append]
          have hfil : news.reverse.filter (fun x => inBounds grid x) = news.reverse := by
            apply List.filter_eq_self.mpr
            intro a ha
            rw [List.mem_reverse] at ha
            exact isOpen_inBounds (hprops a ha).1
          rw [hfil, List.length_reverse]
        have hcard : (S2.filter (fun x => inBounds grid x)).length ≤ seenBound grid :=
          inBounds_filter_length_le (hnodup hinv2.snodup)
        have hmu2 : Q2.length +
            (seenBound grid - (S2.filter (fun x => inBounds grid x)).length) ≤ fuel := by
          simp only [List.length_cons] at hmu
          omega
        obtain ⟨p, hp⟩ := ih Q2 S2 l2 (bfsInv_step hinv2 hlen ht hpd) hre hmu2
        refine ⟨p, ?_⟩
        rw [bfsLoop, ht]
        dsimp only
        rw [hpd]
        exact hp

/-! ## Top-level facts about `find_path` -/

/-- If the goal is reachable, `find_path` answers with a correct shortest
path. -/
lemma find_path_spec_of_reach {grid : List (List Nat)} {s e : Cell} {n : Nat}
    (h : reachN grid s n e) :
    ∃ p, find_path grid s e = some p ∧ GoodPath grid s e p := by
  by_cases hse : s = e
  · subst hse
    exact ⟨[s], by simp [find_path], ⟨[], rfl, List.Chain.nil⟩,
      List.nodup_singleton _, by simp, by simpa using minReach_self grid s⟩
  · have hinv : BfsInv grid s e [[s]] [s] 0 := bfsInv_init hse
    have hmu : (1 : Nat) +
        (seenBound grid - ([s].filter (fun x => inBounds grid x)).length) ≤
          seenBound grid + 1 := by omega
    obtain ⟨p, hp⟩ := bfsLoop_complete (seenBound grid + 1) [[s]] [s] 0 hinv ⟨n, h⟩
      (by simpa using hmu)
    refine ⟨p, ?_, bfsLoop_sound _ _ _ _ _ hinv hp⟩
    rw [find_path, if_neg hse]
    exact hp

/-- If the goal is unreachable, `find_path` answers `None`. -/
lemma find_path_none_of_unreachable {grid : List (List Nat)} {s e : Cell}
    (h : ∀ n, ¬ reachN grid s n e) : find_path grid s e = none := by
  have hse : s ≠ e := by
    intro hh
    exact h 0 (show e = s from hh.symm)
  rw [find_path, if_neg hse]
  cases hb : bfsLoop grid e dirs (grid.length * (grid.headD []).length + 1) [[s]] [s] with
  | none => rfl
  | some p =>
    exfalso
    have hg := bfsLoop_sound _ _ _ _ _ (bfsInv_init hse) hb
    exact h (p.length - 1) hg.2.2.2.1

/-! ## Concrete grids used by the scenario witnesses -/

/-- The 3×3 all-open grid of the spec's scenario (`start=(0,0)`,
`end=(2,2)`, expected path length 5). -/
def grid3 : List (List Nat) := [[0, 0, 0], [0, 0, 0], [0, 0, 0]]

/-- The single-row `[0, 1, 0]` grid of the spec's no-path scenario. -/
def gridRow : List (List Nat) := [[0, 1, 0]]

lemma grid3_reach : reachN grid3 (0, 0) 4 (2, 2) :=
  ⟨(1, 2), ⟨(0, 2), ⟨(0, 1), ⟨(0, 0), rfl, by decide⟩, by decide⟩, by decide⟩, by decide⟩

/-- From `(0,0)` on `[[0,1,0]]` no admissible move exists, so only the
start cell is ever reachable. -/
lemma gridRow_reach_only_start :
    ∀ (n : Nat) (x : Cell), reachN gridRow (0, 0) n x → x = (0, 0) := by
  intro n
  induction n with
  | zero => intro x hx; exact hx
  | succ n ih =>
    intro x hx
    exfalso
    obtain ⟨m, hm, hstep⟩ := hx
    have hm0 := ih m hm
    subst hm0
    obtain ⟨hadj, hopen⟩ := hstep
    obtain ⟨x1, x2⟩ := x
    simp only [dirs, List.mem_cons, List.mem_singleton, Prod.ext_iff] at hadj
    simp only [List.not_mem_nil, or_false] at hadj
    rcases hadj with ⟨h1, h2⟩ | ⟨h1, h2⟩ | ⟨h1, h2⟩ | ⟨h1, h2⟩
    · have e1 : x1 = 0 := by omega
      have e2 : x2 = 1 := by omega
      subst e1; subst e2
      exact absurd hopen (by decide)
    · have e1 : x1 = 0 := by omega
      have e2 : x2 = -1 := by omega
      subst e1; subst e2
      exact absurd hopen (by decide)
    · have e1 : x1 = 1 := by omega
      have e2 : x2 = 0 := by omega
      subst e1; subst e2
      exact absurd hopen (by decide)
    · have e1 : x1 = -1 := by omega
      have e2 : x2 = 0 := by omega
      subst e1; subst e2
      exact absurd hopen (by decide)

lemma gridRow_unreach : ∀ n, ¬ reachN gridRow (0, 0) n (0, 2) := by
  intro n hr
  have h := gridRow_reach_only_start n (0, 2) hr
  exact absurd h (by decide)

/-! ## Claims C1, C3, C4, C5 — the path planner -/

/-- Claim C1: for every (rectangular) grid and every pair of cells with
the end reachable from the start through open 4-connected cells,
`find_path` returns a path whose cell count minus one — its edge count —
is exactly the least number of admissible moves from start to end (BFS
shortest-path optimality; the spec's own 3×3 scenario counts length in
cells, e.g. 5 cells = distance 4). -/
theorem C1_bfs_shortest (grid : List (List Nat)) (s e : Cell) (hrect : Rect grid)
    (n : Nat) (h : reachN grid s n e) :
    ∃ p, find_path grid s e = some p ∧ reachN grid s (p.length - 1) e ∧
      ∀ k, reachN grid s k e → p.length - 1 ≤ k := by
  obtain ⟨p, hp, hg⟩ := find_path_spec_of_reach h
  exact ⟨p, hp, hg.2.2.2.1, hg.2.2.2.2⟩

/-- Witness for C1 at the spec's 3×3 scenario: the end is 4 moves away
and the returned path indeed has 5 cells. -/
theorem C1_witness :
    (∃ p, find_path grid3 (0, 0) (2, 2) = some p ∧
      reachN grid3 (0, 0) (p.length - 1) (2, 2) ∧
      ∀ k, reachN grid3 (0, 0) k (2, 2) → p.length - 1 ≤ k) ∧
    find_path grid3 (0, 0) (2, 2) = some [(0, 0), (0, 1), (0, 2), (1, 2), (2, 2)] :=
  ⟨C1_bfs_shortest grid3 (0, 0) (2, 2) (by decide) 4 grid3_reach, by decide⟩

/-- Claim C3 counterexample: the source explores neighbours in the order
`(0,1), (0,-1), (1,0), (-1,0)` — +col, −col, +row, −row — not the
claimed +row, −row, +col, −col; on the open 3×3 grid the two orders
break the shortest-path tie differently. -/
theorem C3_counterexample :
    dirs ≠ specDirs ∧
    find_path grid3 (0, 0) (2, 2) = some [(0, 0), (0, 1), (0, 2), (1, 2), (2, 2)] ∧
    find_path_specOrder grid3 (0, 0) (2, 2) =
      some [(0, 0), (1, 0), (2, 0), (2, 1), (2, 2)] ∧
    find_path grid3 (0, 0) (2, 2) ≠ find_path_specOrder grid3 (0, 0) (2, 2) :=
  ⟨by decide, by decide, by decide, by decide⟩

/-- Claim C3 (amended): the planner explores the four neighbours of each
dequeued cell in the fixed deterministic order +col, −col, +row, −row
(`(0,1), (0,-1), (1,0), (-1,0)`), and ties among equal-length shortest
paths are broken by that order — on the open 3×3 grid it yields the
column-first path. -/
theorem C3_neighbour_order :
    dirs = [(0, 1), (0, -1), (1, 0), (-1, 0)] ∧
    find_path grid3 (0, 0) (2, 2) = some [(0, 0), (0, 1), (0, 2), (1, 2), (2, 2)] :=
  ⟨rfl, by decide⟩

/-- Claim C4: every path returned by `find_path` starts at the start
cell, ends at the end cell, moves between 4-adjacent cells, repeats no
cell, and has at least one cell. -/
theorem C4_path_invariants (grid : List (List Nat)) (s e : Cell) (p : List Cell)
    (h : find_path grid s e = some p) :
    p.head? = some s ∧ p.getLast? = some e ∧
      List.Chain' (fun a b : Cell => (b.1 - a.1, b.2 - a.2) ∈ dirs) p ∧
      p.Nodup ∧ 1 ≤ p.length := by
  by_cases hse : s = e
  · rw [find_path, if_pos hse] at h
    injection h with h
    subst h
    subst hse
    exact ⟨rfl, by simp, by simp, List.nodup_singleton _, by simp⟩
  · rw [find_path, if_neg hse] at h
    obtain ⟨⟨tl, htl, hchain⟩, hnd, hlast, _⟩ := bfsLoop_sound _ _ _ _ _ (bfsInv_init hse) h
    subst htl
    exact ⟨rfl, hlast, List.Chain.imp (fun a b hab => hab.1) hchain, hnd, by simp⟩

/-- Witness for C4 on a 1×2 open grid. -/
theorem C4_witness :
    ([(0, 0), (0, 1)] : List Cell).head? = some (0, 0) ∧
      ([(0, 0), (0, 1)] : List Cell).getLast? = some (0, 1) ∧
      List.Chain' (fun a b : Cell => (b.1 - a.1, b.2 - a.2) ∈ dirs)
        [(0, 0), (0, 1)] ∧
      ([(0, 0), (0, 1)] : List Cell).Nodup ∧
      1 ≤ ([(0, 0), (0, 1)] : List Cell).length :=
  C4_path_invariants [[0, 0]] (0, 0) (0, 1) [(0, 0), (0, 1)] (by decide)

/-- Claim C5: `find_path(grid, start, start)` is the single-cell path
`[start]`, whatever the grid holds. -/
theorem C5_start_eq_end (grid : List (List Nat)) (s : Cell) :
    find_path grid s s = some [s] := by
  simp [find_path]

/-! ## Handler plumbing -/

/-- Evaluation of the handler on a well-formed request (all fields
present, integer-valued, non-zero tile size). -/
lemma get_ai_move_eq {w h gs : Int} {objects : List JObj} (hgs : gs ≠ 0) :
    get_ai_move ⟨some (JVal.jint w), some (JVal.jint h), some (JVal.jint gs),
      some objects⟩ =
      match procObjs gs objects (mkGrid w h gs) none none with
      | none => AIResp.errorResp "Internal server error" 500
      | some (grid, player_pos, ai_pos) =>
        match player_pos, ai_pos with
        | some pp, some ap =>
          match find_path grid ap pp with
          | some (_ :: next :: _) => AIResp.success (next.2 * gs) (next.1 * gs)
          | _ => AIResp.noMove (ap.2 * gs) (ap.1 * gs)
        | _, _ => AIResp.errorResp "Player or AI not found" 400 := by
  rw [get_ai_move]
  dsimp only
  rw [if_neg hgs]

/-! ## Claim C6 — unreachable target -/

/-- Claim C6 (amended on the reported coordinates): when the end cell is
unreachable from the start through open cells, `find_path` answers `None`
(the queue empties without reaching the end), and the request is answered
with the `no_move` status — distinguishable from `success` — carrying the
pixel coordinates of the pursuer's current *cell*,
`(ai_col * grid_size, ai_row * grid_size)` (these equal the pursuer's own
pixel position exactly when that position is tile-aligned). -/
theorem C6_unreachable_hold :
    (∀ (grid : List (List Nat)) (s e : Cell), Rect grid →
      (∀ n, ¬ reachN grid s n e) → find_path grid s e = none) ∧
    (∀ (w h gs : Int) (objects : List JObj) (grid : List (List Nat)) (pp ap : Cell),
      gs ≠ 0 →
      procObjs gs objects (mkGrid w h gs) none none = some (grid, some pp, some ap) →
      (∀ n, ¬ reachN grid ap n pp) →
      get_ai_move ⟨some (JVal.jint w), some (JVal.jint h), some (JVal.jint gs),
        some objects⟩ = AIResp.noMove (ap.2 * gs) (ap.1 * gs)) ∧
    (∀ a b a2 b2 : Int, AIResp.noMove a b ≠ AIResp.success a2 b2) := by
  refine ⟨fun grid s e _ hun => find_path_none_of_unreachable hun, ?_, ?_⟩
  · intro w h gs objects grid pp ap hgs hproc hun
    rw [get_ai_move_eq hgs, hproc]
    dsimp only
    rw [find_path_none_of_unreachable hun]
  · intro a b a2 b2 hh
    exact AIResp.noConfusion hh

/-- Claim C6 counterexample to the original wording: with the pursuer at
pixel x = 1 (not tile-aligned, cell `(0,0)`) and an unreachable target,
the hold reply reports pixel `(0, 0)`, not the pursuer's own pixel
position `(1, 0)` "unchanged". -/
theorem C6_counterexample :
    get_ai_move
      ⟨some (JVal.jint 96), some (JVal.jint 32), some (JVal.jint 32),
        some [⟨some (JVal.jstr "wall"), some (JVal.jint 32), some (JVal.jint 0)⟩,
              ⟨some (JVal.jstr "ai_enemy"), some (JVal.jint 1), some (JVal.jint 0)⟩,
              ⟨some (JVal.jstr "player"), some (JVal.jint 64), some (JVal.jint 0)⟩]⟩ =
      AIResp.noMove 0 0 ∧
    AIResp.noMove 0 0 ≠ AIResp.noMove 1 0 := ⟨by decide, by decide⟩

/-- Witness for C6: the spec's `[[0,1,0]]` no-path scenario, both for
`find_path` alone and through the handler. -/
theorem C6_witness :
    find_path gridRow (0, 0) (0, 2) = none ∧
      get_ai_move
        ⟨some (JVal.jint 96), some (JVal.jint 32), some (JVal.jint 32),
          some [⟨some (JVal.jstr "wall"), some (JVal.jint 32), some (JVal.jint 0)⟩,
                ⟨some (JVal.jstr "ai_enemy"), some (JVal.jint 0), some (JVal.jint 0)⟩,
                ⟨some (JVal.jstr "player"), some (JVal.jint 64), some (JVal.jint 0)⟩]⟩ =
        AIResp.noMove 0 0 := by
  constructor
  · exact C6_unreachable_hold.1 gridRow (0, 0) (0, 2) (by decide) gridRow_unreach
  · have h2 := C6_unreachable_hold.2.1 96 32 32
      [⟨some (JVal.jstr "wall"), some (JVal.jint 32), some (JVal.jint 0)⟩,
       ⟨some (JVal.jstr "ai_enemy"), some (JVal.jint 0), some (JVal.jint 0)⟩,
       ⟨some (JVal.jstr "player"), some (JVal.jint 64), some (JVal.jint 0)⟩]
      gridRow (0, 2) (0, 0) (by decide) (by decide) gridRow_unreach
    simpa using h2

/-! ## Claim C7 — missing actor -/

/-- Claim C7: if the object scan leaves either actor unset, the handler
answers the dedicated missing-actor failure (`"Player or AI not found"`,
HTTP 400; the spec's `MissingActor`) before any path planning; when both
actors are present that failure is never produced. -/
theorem C7_missing_actor :
    ∀ (w h gs : Int) (objects : List JObj) (grid : List (List Nat))
      (player_pos ai_pos : Option Cell),
      gs ≠ 0 →
      procObjs gs objects (mkGrid w h gs) none none = some (grid, player_pos, ai_pos) →
      ((player_pos = none ∨ ai_pos = none) →
        get_ai_move ⟨some (JVal.jint w), some (JVal.jint h), some (JVal.jint gs),
          some objects⟩ = AIResp.errorResp "Player or AI not found" 400) ∧
      ((∃ pp, player_pos = some pp) → (∃ ap, ai_pos = some ap) →
        get_ai_move ⟨some (JVal.jint w), some (JVal.jint h), some (JVal.jint gs),
          some objects⟩ ≠ AIResp.errorResp "Player or AI not found" 400) := by
  intro w h gs objects grid player_pos ai_pos hgs hproc
  constructor
  · intro hmiss
    rw [get_ai_move_eq hgs, hproc]
    rcases hmiss with hm | hm
    · subst hm
      cases ai_pos <;> rfl
    · subst hm
      cases player_pos <;> rfl
  · rintro ⟨pp, rfl⟩ ⟨ap, rfl⟩
    rw [get_ai_move_eq hgs, hproc]
    dsimp only
    cases hfp : find_path grid ap pp with
    | none =>
      exact fun hh => AIResp.noConfusion hh
    | some p =>
      match p with
      | [] => exact fun hh => AIResp.noConfusion hh
      | [a] => exact fun hh => AIResp.noConfusion hh
      | a :: b :: t => exact fun hh => AIResp.noConfusion hh

/-- Witness for C7: a request lacking any `player` object is answered
with the missing-actor failure; the same request with a `player` added is
not. -/
theorem C7_witness :
    get_ai_move
      ⟨some (JVal.jint 64), some (JVal.jint 64), some (JVal.jint 32),
        some [⟨some (JVal.jstr "ai_enemy"), some (JVal.jint 0), some (JVal.jint 0)⟩]⟩ =
      AIResp.errorResp "Player or AI not found" 400 ∧
    get_ai_move
      ⟨some (JVal.jint 64), some (JVal.jint 64), some (JVal.jint 32),
        some [⟨some (JVal.jstr "ai_enemy"), some (JVal.jint 0), some (JVal.jint 0)⟩,
              ⟨some (JVal.jstr "player"), some (JVal.jint 32), some (JVal.jint 0)⟩]⟩ ≠
      AIResp.errorResp "Player or AI not found" 400 := by
  constructor
  · exact (C7_missing_actor 64 64 32
      [⟨some (JVal.jstr "ai_enemy"), some (JVal.jint 0), some (JVal.jint 0)⟩]
      (mkGrid 64 64 32) none (some (0, 0)) (by decide) (by decide)).1 (Or.inl rfl)
  · exact (C7_missing_actor 64 64 32
      [⟨some (JVal.jstr "ai_enemy"), some (JVal.jint 0), some (JVal.jint 0)⟩,
       ⟨some (JVal.jstr "player"), some (JVal.jint 32), some (JVal.jint 0)⟩]
      (mkGrid 64 64 32) (some (0, 1)) (some (0, 0)) (by decide) (by decide)).2
      ⟨(0, 1), rfl⟩ ⟨(0, 0), rfl⟩

/-! ## Claim C9 — the recommended next step -/

/-- Claim C9: whenever the found path has more than one cell, the
recommended next cell is the path's second element and the success reply
carries `(next_col * grid_size, next_row * grid_size)`; in the spec's
scenario — pursuer cell (5,5), target cell (5,7), tile size 32, no
obstacles — the reply is pixel `(192, 160)`. -/
theorem C9_next_step :
    (∀ (w h gs : Int) (objects : List JObj) (grid : List (List Nat))
      (pp ap a b : Cell) (tail : List Cell),
      gs ≠ 0 →
      procObjs gs objects (mkGrid w h gs) none none = some (grid, some pp, some ap) →
      find_path grid ap pp = some (a :: b :: tail) →
      get_ai_move ⟨some (JVal.jint w), some (JVal.jint h), some (JVal.jint gs),
        some objects⟩ = AIResp.success (b.2 * gs) (b.1 * gs)) ∧
    get_ai_move
      ⟨some (JVal.jint 640), some (JVal.jint 480), some (JVal.jint 32),
        some [⟨some (JVal.jstr "ai_enemy"), some (JVal.jint 160), some (JVal.jint 160)⟩,
              ⟨some (JVal.jstr "player"), some (JVal.jint 224), some (JVal.jint 160)⟩]⟩ =
      AIResp.success 192 160 := by
  constructor
  · intro w h gs objects grid pp ap a b tail hgs hproc hfp
    rw [get_ai_move_eq hgs, hproc]
    dsimp only
    rw [hfp]
  · decide

/-- Witness for C9 on a 1×2 grid: pursuer cell (0,0), target cell (0,1),
tile size 32 — the next step is cell (0,1), pixel (32, 0). -/
theorem C9_witness :
    get_ai_move
      ⟨some (JVal.jint 64), some (JVal.jint 32), some (JVal.jint 32),
        some [⟨some (JVal.jstr "ai_enemy"), some (JVal.jint 0), some (JVal.jint 0)⟩,
              ⟨some (JVal.jstr "player"), some (JVal.jint 32), some (JVal.jint 0)⟩]⟩ =
      AIResp.success 32 0 := by
  have h := C9_next_step.1 64 32 32
    [⟨some (JVal.jstr "ai_enemy"), some (JVal.jint 0), some (JVal.jint 0)⟩,
     ⟨some (JVal.jstr "player"), some (JVal.jint 32), some (JVal.jint 0)⟩]
    [[0, 0]] (0, 1) (0, 0) (0, 0) (0, 1) [] (by decide) (by decide) (by decide)
  simpa using h

/-! ## Claim C2 — out-of-bounds objects are *not* silently skipped -/

/-- Claim C2 counterexample: a `wall` at pixel y = 128 on a 2×2 grid
(cell row 4, out of bounds) makes the object scan fail (`IndexError`),
and the whole request is answered with the generic internal error — it is
not silently skipped. -/
theorem C2_counterexample :
    procObjs 32 [⟨some (JVal.jstr "wall"), some (JVal.jint 0), some (JVal.jint 128)⟩]
      (mkGrid 64 64 32) none none = none ∧
    get_ai_move
      ⟨some (JVal.jint 64), some (JVal.jint 64), some (JVal.jint 32),
        some [⟨some (JVal.jstr "wall"), some (JVal.jint 0), some (JVal.jint 128)⟩]⟩ =
      AIResp.errorResp "Internal server error" 500 := ⟨by decide, by decide⟩

/-- Claim C2 (amended): a blocking (`wall`/`enemy`) object whose computed
cell row is outside Python's index range for the grid (`r < -rows` or
`r ≥ rows`) is not skipped: the grid assignment raises `IndexError` and
the handler answers the generic internal error.  (For `-rows ≤ r < 0` the
source instead marks a wrapped row, Python-style.) -/
theorem C2_oob_error (w h gs xv yv : Int) (tv : JVal) (rest : List JObj)
    (hgs : gs ≠ 0)
    (hty : tv = JVal.jstr "wall" ∨ tv = JVal.jstr "enemy")
    (hrow : Int.fdiv yv gs < -(((Int.fdiv h gs).toNat : Nat) : Int) ∨
      (((Int.fdiv h gs).toNat : Nat) : Int) ≤ Int.fdiv yv gs) :
    get_ai_move ⟨some (JVal.jint w), some (JVal.jint h), some (JVal.jint gs),
      some (⟨some tv, some (JVal.jint xv), some (JVal.jint yv)⟩ :: rest)⟩ =
    AIResp.errorResp "Internal server error" 500 := by
  rw [get_ai_move_eq hgs]
  have hset : setCell (mkGrid w h gs) (Int.fdiv yv gs) (Int.fdiv xv gs) = none := by
    rw [setCell]
    have hlen : (mkGrid w h gs).length = (Int.fdiv h gs).toNat := by
      simp [mkGrid]
    have hpy : pyIdx (mkGrid w h gs).length (Int.fdiv yv gs) = none := by
      rw [hlen, pyIdx, if_neg (by omega), if_neg (by omega)]
    rw [hpy]
  have hproc : procObjs gs
      (⟨some tv, some (JVal.jint xv), some (JVal.jint yv)⟩ :: rest)
      (mkGrid w h gs) none none = none := by
    simp only [procObjs]
    rw [if_pos hty, hset]
  rw [hproc]

/-- Witness for C2 (amended) with an `enemy` at pixel y = −1000
(cell row −32, below the wrap range of the 2-row grid). -/
theorem C2_witness :
    get_ai_move
      ⟨some (JVal.jint 64), some (JVal.jint 64), some (JVal.jint 32),
        some [⟨some (JVal.jstr "enemy"), some (JVal.jint 0), some (JVal.jint (-1000))⟩]⟩ =
      AIResp.errorResp "Internal server error" 500 :=
  C2_oob_error 64 64 32 0 (-1000) (JVal.jstr "enemy") [] (by decide)
    (Or.inr rfl) (Or.inl (by decide))

/-! ## Claim C8 — malformed input gets the *generic* error -/

/-- Claim C8 counterexample: a request with no fields at all is answered
`("Internal server error", 500)` — there is no failure tagged
`"malformed_input"` anywhere in the handler. -/
theorem C8_counterexample :
    get_ai_move ⟨none, none, none, none⟩ =
      AIResp.errorResp "Internal server error" 500 ∧
    ∀ code : Nat, get_ai_move ⟨none, none, none, none⟩ ≠
      AIResp.errorResp "malformed_input" code := by
  refine ⟨rfl, ?_⟩
  intro code hcontra
  have hval : get_ai_move ⟨none, none, none, none⟩ =
      AIResp.errorResp "Internal server error" 500 := rfl
  rw [hval] at hcontra
  injection hcontra with h1 h2
  exact absurd h1 (by decide)

/-- Claim C8 (amended): malformed input — e.g. a missing `width` field or
a zero `grid_size` — is not rejected with a dedicated
`"malformed_input"` failure before grid construction; the resulting
exception is caught by the handler's blanket `except` and answered with
the generic `("Internal server error", 500)`, indistinguishable from any
other internal failure. -/
theorem C8_generic_error (req : JReq)
    (h : req.width = none ∨ req.grid_size = some (JVal.jint 0)) :
    get_ai_move req = AIResp.errorResp "Internal server error" 500 := by
  obtain ⟨wf, hf, gf, objf⟩ := req
  rcases h with h | h
  · simp only at h
    subst h
    rfl
  · simp only at h
    subst h
    rcases wf with _ | ⟨wi | ws⟩ <;> rcases hf with _ | ⟨hi | hs⟩ <;>
      rcases objf with _ | objs <;> rfl

/-- Witness for C8 (amended) with a present-but-zero `grid_size`
(Python's `ZeroDivisionError` path). -/
theorem C8_witness :
    get_ai_move ⟨some (JVal.jint 640), some (JVal.jint 480), some (JVal.jint 0),
      some []⟩ = AIResp.errorResp "Internal server error" 500 :=
  C8_generic_error ⟨some (JVal.jint 640), some (JVal.jint 480), some (JVal.jint 0),
    some []⟩ (Or.inr rfl)

/-! ## Claim C10 — `goal` objects are inert -/

/-- Objects whose `type` is not the string `"goal"`. -/
def nonGoal (o : JObj) : Bool := o.type != some (JVal.jstr "goal")

/-- The object scan is congruent under replacing the tail: processing one
object commutes with whatever happens later. -/
lemma procObjs_cons_congr (gs : Int) (o : JObj) {rest1 rest2 : List JObj}
    (h : ∀ grid pp ap, procObjs gs rest1 grid pp ap = procObjs gs rest2 grid pp ap)
    (grid : List (List Nat)) (pp ap : Option Cell) :
    procObjs gs (o :: rest1) grid pp ap = procObjs gs (o :: rest2) grid pp ap := by
  obtain ⟨ty, ox, oy⟩ := o
  simp only [procObjs]
  rcases oy with _ | ⟨yv | ys⟩ <;> rcases ox with _ | ⟨xv | xs⟩ <;>
    rcases ty with _ | tv <;> try rfl
  dsimp only
  by_cases hw : tv = JVal.jstr "wall" ∨ tv = JVal.jstr "enemy"
  · rw [if_pos hw, if_pos hw]
    cases hsc : setCell grid (Int.fdiv yv gs) (Int.fdiv xv gs) with
    | none => rfl
    | some g2 => exact h g2 pp ap
  · rw [if_neg hw, if_neg hw]
    by_cases hp : tv = JVal.jstr "player"
    · rw [if_pos hp, if_pos hp]
      exact h grid _ ap
    · rw [if_neg hp, if_neg hp]
      by_cases ha : tv = JVal.jstr "ai_enemy"
      · rw [if_pos ha, if_pos ha]
        exact h grid pp _
      · rw [if_neg ha, if_neg ha]
        exact h grid pp ap

/-- Objects typed `goal` (with integer coordinates, so that the cell
computation does not raise) match no branch of the scan loop: filtering
them out does not change the scan's result. -/
lemma procObjs_goal_filter (gs : Int) :
    ∀ (objs : List JObj),
      (∀ o ∈ objs, o.type = some (JVal.jstr "goal") →
        (∃ xv, o.x = some (JVal.jint xv)) ∧ (∃ yv, o.y = some (JVal.jint yv))) →
      ∀ grid pp ap,
        procObjs gs objs grid pp ap = procObjs gs (objs.filter nonGoal) grid pp ap := by
  intro objs
  induction objs with
  | nil => intro _ grid pp ap; rfl
  | cons o rest ih =>
    intro hwf grid pp ap
    have hrest := ih (fun o2 ho2 => hwf o2 (List.mem_cons_of_mem _ ho2))
    by_cases hg : o.type = some (JVal.jstr "goal")
    · obtain ⟨⟨xv, hx⟩, yv, hy⟩ := hwf o (List.mem_cons_self _ _) hg
      have hfil : (o :: rest).filter nonGoal = rest.filter nonGoal := by
        rw [List.filter_cons_of_neg]
        simp [nonGoal, hg]
      rw [hfil, ← hrest grid pp ap]
      obtain ⟨ty, ox, oy⟩ := o
      simp only at hg hx hy
      subst hg
      subst hx
      subst hy
      simp only [procObjs]
      rw [if_neg (by decide), if_neg (by decide), if_neg (by decide)]
    · have hfil : (o :: rest).filter nonGoal = o :: rest.filter nonGoal := by
        rw [List.filter_cons_of_pos]
        simp [nonGoal, hg]
      rw [hfil]
      exact procObjs_cons_congr gs o hrest grid pp ap

/-- Claim C10: two requests that agree on `width`, `height`, `grid_size`
and on their non-`goal` objects (so they differ only in the presence,
number, or positions of `goal` objects) are answered identically: `goal`
objects never block a cell, never bind an actor, and never affect the
grid, the path, or the reply. -/
theorem C10_goal_noninterference :
    ∀ (wf hf gf : Option JVal) (objs1 objs2 : List JObj),
      (∀ o ∈ objs1, o.type = some (JVal.jstr "goal") →
        (∃ xv, o.x = some (JVal.jint xv)) ∧ (∃ yv, o.y = some (JVal.jint yv))) →
      (∀ o ∈ objs2, o.type = some (JVal.jstr "goal") →
        (∃ xv, o.x = some (JVal.jint xv)) ∧ (∃ yv, o.y = some (JVal.jint yv))) →
      objs1.filter nonGoal = objs2.filter nonGoal →
      get_ai_move ⟨wf, hf, gf, some objs1⟩ = get_ai_move ⟨wf, hf, gf, some objs2⟩ := by
  intro wf hf gf objs1 objs2 h1 h2 hfil
  rcases wf with _ | ⟨wi | ws⟩ <;> rcases hf with _ | ⟨hi | hs⟩ <;>
    rcases gf with _ | ⟨gi | gstr⟩ <;> try rfl
  by_cases hgs : gi = 0
  · subst hgs
    rfl
  · rw [get_ai_move_eq hgs, get_ai_move_eq hgs,
      procObjs_goal_filter gi objs1 h1, procObjs_goal_filter gi objs2 h2, hfil]

/-- Witness for C10: adding a `goal` object changes nothing in the
reply. -/
theorem C10_witness :
    get_ai_move
      ⟨some (JVal.jint 64), some (JVal.jint 32), some (JVal.jint 32),
        some [⟨some (JVal.jstr "ai_enemy"), some (JVal.jint 0), some (JVal.jint 0)⟩,
              ⟨some (JVal.jstr "player"), some (JVal.jint 32), some (JVal.jint 0)⟩,
              ⟨some (JVal.jstr "goal"), some (JVal.jint 32), some (JVal.jint 0)⟩]⟩ =
    get_ai_move
      ⟨some (JVal.jint 64), some (JVal.jint 32), some (JVal.jint 32),
        some [⟨some (JVal.jstr "ai_enemy"), some (JVal.jint 0), some (JVal.jint 0)⟩,
              ⟨some (JVal.jstr "player"), some (JVal.jint 32), some (JVal.jint 0)⟩]⟩ := by
  apply C10_goal_noninterference
  · intro o ho hg
    simp only [List.mem_cons, List.not_mem_nil, or_false] at ho
    rcases ho with rfl | rfl | rfl
    · exact absurd hg (by decide)
    · exact absurd hg (by decide)
    · exact ⟨⟨32, rfl⟩, ⟨0, rfl⟩⟩
  · intro o ho hg
    simp only [List.mem_cons, List.not_mem_nil, or_false] at ho
    rcases ho with rfl | rfl
    · exact absurd hg (by decide)
    · exact absurd hg (by decide)
  · decide
